import Mathlib

/-!
# Verification of the Semantic-Sort similarity ranker (`src/main.py`)

Shallow embedding of the ranking routine in `index` (`main.py`, lines
114-137), the embedding-API wrapper `get_hf_embedding` (lines 33-55) and
the POST branch of `index` (lines 88-101).

Python floats are modelled as real numbers `ℝ`; `np.linalg.norm` is the
Euclidean norm `Real.sqrt (Σ v i ^ 2)`.  `np.argsort` is modelled as the
stable ascending argsort (ties keep their index order), the behaviour
numpy documents for `kind='stable'` and which its default sort exhibits
on the small arrays this application produces; the model makes that
deterministic by sorting index lists with the lexicographic order
"smaller key first, equal keys in index order".  The store (Supabase
table `entries`, ordered by `created_at` ascending) is a list of rows,
newest last.
-/

namespace SemanticSort

/-- A row of the `entries` table as fetched in `index`
(`select("id, text, embedding, created_at")`, ordered by `created_at`
ascending — the position in the fetched list plays the role of
`created_at`). -/
structure Entry where
  id : ℕ
  text : String
  embedding : List ℝ

/-- `np.dot` on equal-length vectors / one row of `prev_embs @ query_emb`
(line 128): the sum of componentwise products. -/
def dot (u v : List ℝ) : ℝ := (List.zipWith (· * ·) u v).sum

/-- `np.linalg.norm` (lines 126-127): the Euclidean norm. -/
noncomputable def norm (v : List ℝ) : ℝ := Real.sqrt (dot v v)

/-- The `1e-10` added to the denominator on line 128. -/
def eps : ℝ := 1e-10

/-- One entry of `sims` (line 128): the similarity of candidate
embedding `e` to the query embedding `q`, computed as
`(prev_embs @ query_emb) / (prev_norms * query_norm + 1e-10)` row-wise. -/
noncomputable def simTo (q e : List ℝ) : ℝ := dot e q / (norm e * norm q + eps)

/-- The vector `sims` of line 128: similarity of each previous embedding
to the query embedding. -/
noncomputable def sims (q : List ℝ) (embs : List (List ℝ)) : List ℝ :=
  embs.map (simTo q)

/-- The order in which `np.argsort` lists indices: index `i` before
index `j` when its key is strictly smaller, or the keys are equal and
`i ≤ j` (stable: equal keys stay in index order). -/
def keyOrder (s : List ℝ) (i j : ℕ) : Prop :=
  s.getD i 0 < s.getD j 0 ∨ (s.getD i 0 = s.getD j 0 ∧ i ≤ j)

noncomputable instance keyOrder.instDecidableRel (s : List ℝ) :
    DecidableRel (keyOrder s) := fun i j => by
  unfold keyOrder; infer_instance

/-- `np.argsort(sims)` (line 131): the indices `0, …, len(sims)-1`
sorted so that `sims` read through them is ascending, equal entries in
index order. -/
noncomputable def argsort (s : List ℝ) : List ℕ :=
  List.insertionSort (keyOrder s) (List.range s.length)

/-- `idxs = np.argsort(sims)[::-1]` (line 131). -/
noncomputable def rankIdxs (s : List ℝ) : List ℕ := (argsort s).reverse

/-- The index order in which `rank` lists the candidates: `idxs`
computed from the similarities of the candidates' embeddings to the
query's embedding. -/
noncomputable def rankOrder (query : Entry) (cands : List Entry) : List ℕ :=
  rankIdxs (sims query.embedding (cands.map Entry.embedding))

/-- Lines 120-137: `sorted_list` built from the query record and the
previous records.  Nonempty case (line 134):
`[query_record["text"]] + [prev_texts[i] for i in idxs]`; empty case
(line 137): `[query_record["text"]]`. -/
noncomputable def rank (query : Entry) (cands : List Entry) : List String :=
  if cands.isEmpty then [query.text]
  else
    query.text ::
      (rankOrder query cands).map (fun i => (cands.map Entry.text).getD i "")

/-- Lines 114-137: `sorted_list` derived from the freshly refetched
`data`: the query record is `data[-1]`, the candidates `data[:-1]`.
(`data` is nonempty at this point in the code — the `none` branch is
unreachable and keeps the initial `sorted_list = []`.) -/
noncomputable def semanticSort (data : List Entry) : List String :=
  match data.getLast? with
  | none => []
  | some q => rank q data.dropLast

/-- Python `str.strip()` on the submitted text (line 90): remove leading
and trailing whitespace. -/
def pyStrip (s : String) : String :=
  ((s.data.dropWhile Char.isWhitespace).reverse.dropWhile
    Char.isWhitespace).reverse.asString

/-- What the `index` handler computes on a POST request: the resulting
store and the two lists handed to the template (lines 140-144). -/
structure PostResult where
  store : List Entry
  original_list : List String
  sorted_list : List String

/-- Lines 88-137, the POST branch of `index`.  `store0` is the already
persisted entry list (ordered by `created_at` ascending),
`formUserText` the form field `user_text` (`none` when absent), `embed`
stands for `get_hf_embedding`, and `newId` is the id the store assigns
to the inserted row.  When the stripped text is nonempty the new row is
inserted (with `created_at = now()`, hence refetched last) and both
lists are rebuilt from the refetched data; otherwise nothing happens
and `sorted_list` keeps its initial value `[]`. -/
noncomputable def indexPost (store0 : List Entry) (formUserText : Option String)
    (embed : String → List ℝ) (newId : ℕ) : PostResult :=
  let user_text := pyStrip (formUserText.getD "")
  if user_text = "" then
    { store := store0
      original_list := store0.map Entry.text
      sorted_list := [] }
  else
    let data := store0 ++ [⟨newId, user_text, embed user_text⟩]
    { store := data
      original_list := data.map Entry.text
      sorted_list := semanticSort data }

/-- The response object of `requests.post` as far as `get_hf_embedding`
inspects it: the status code, the body text (used in the error message)
and the parsed JSON body, of which only the presence and value of the
`"embedding"` key matter (`embedding? = some v` iff the body is an
object with key `"embedding"` holding the float list `v`). -/
structure HFResponse where
  status_code : ℕ
  text : String
  embedding? : Option (List ℝ)

/-- Lines 33-55: `get_hf_embedding`, with `raise RuntimeError(...)`
modelled as `Except.error` carrying the message. -/
def get_hf_embedding (resp : HFResponse) : Except String (List ℝ) :=
  if resp.status_code ≠ 200 then
    Except.error
      ("Hugging Face API error " ++ toString resp.status_code ++ ": " ++ resp.text)
  else
    match resp.embedding? with
    | some v => Except.ok v
    | none => Except.error "Unexpected response format from HF"

/-! ## Helper lemmas about the argsort model -/

lemma keyOrder_total (s : List ℝ) : ∀ i j, keyOrder s i j ∨ keyOrder s j i := by
  intro i j
  rcases lt_trichotomy (s.getD i 0) (s.getD j 0) with h | h | h
  · exact Or.inl (Or.inl h)
  · rcases Nat.le_total i j with hij | hij
    · exact Or.inl (Or.inr ⟨h, hij⟩)
    · exact Or.inr (Or.inr ⟨h.symm, hij⟩)
  · exact Or.inr (Or.inl h)

lemma keyOrder_trans (s : List ℝ) :
    ∀ i j k, keyOrder s i j → keyOrder s j k → keyOrder s i k := by
  intro i j k hij hjk
  rcases hij with h₁ | ⟨e₁, l₁⟩
  · rcases hjk with h₂ | ⟨e₂, _⟩
    · exact Or.inl (h₁.trans h₂)
    · exact Or.inl (e₂ ▸ h₁)
  · rcases hjk with h₂ | ⟨e₂, l₂⟩
    · exact Or.inl (e₁ ▸ h₂)
    · exact Or.inr ⟨e₁.trans e₂, l₁.trans l₂⟩

lemma argsort_perm (s : List ℝ) : (argsort s).Perm (List.range s.length) :=
  List.perm_insertionSort _ _

lemma argsort_sorted (s : List ℝ) : List.Sorted (keyOrder s) (argsort s) := by
  haveI : IsTotal ℕ (keyOrder s) := ⟨keyOrder_total s⟩
  haveI : IsTrans ℕ (keyOrder s) := ⟨fun a b c => keyOrder_trans s a b c⟩
  exact List.sorted_insertionSort _ _

lemma rankIdxs_perm (s : List ℝ) : (rankIdxs s).Perm (List.range s.length) :=
  (List.reverse_perm (argsort s)).trans (argsort_perm s)

lemma rankIdxs_length (s : List ℝ) : (rankIdxs s).length = s.length := by
  simpa using (rankIdxs_perm s).length_eq

lemma rankIdxs_nodup (s : List ℝ) : (rankIdxs s).Nodup :=
  ((rankIdxs_perm s).symm).nodup (List.nodup_range s.length)

lemma mem_rankIdxs (s : List ℝ) (i : ℕ) : i ∈ rankIdxs s ↔ i < s.length := by
  rw [(rankIdxs_perm s).mem_iff, List.mem_range]

lemma rankIdxs_pairwise (s : List ℝ) :
    (rankIdxs s).Pairwise (fun i j => keyOrder s j i) := by
  have h := argsort_sorted s
  exact List.pairwise_reverse.mpr h

lemma rankIdxs_getElem_rel (s : List ℝ) {p q : ℕ}
    (hp : p < (rankIdxs s).length) (hq : q < (rankIdxs s).length) (hpq : p < q) :
    keyOrder s ((rankIdxs s)[q]) ((rankIdxs s)[p]) :=
  List.pairwise_iff_getElem.mp (rankIdxs_pairwise s) p q hp hq hpq

lemma map_getD_range (l : List String) (d : String) :
    (List.range l.length).map (fun i => l.getD i d) = l := by
  apply List.ext_getElem
  · simp
  · intro i h₁ h₂
    simp only [List.getElem_map, List.getElem_range]
    exact List.getD_eq_getElem l d h₂

lemma sims_length (q : List ℝ) (embs : List (List ℝ)) :
    (sims q embs).length = embs.length := by
  simp [sims]

lemma sims_getD (q : List ℝ) (embs : List (List ℝ)) {i : ℕ}
    (hi : i < embs.length) :
    (sims q embs).getD i 0 = simTo q embs[i] := by
  have hi' : i < (sims q embs).length := by rwa [sims_length]
  rw [List.getD_eq_getElem _ _ hi']
  simp [sims]

lemma dot_comm (u v : List ℝ) : dot u v = dot v u := by
  induction u generalizing v with
  | nil => cases v <;> simp [dot]
  | cons a u ih =>
    cases v with
    | nil => simp [dot]
    | cons b v =>
      rw [show dot (a :: u) (b :: v) = a * b + dot u v from by simp [dot],
        show dot (b :: v) (a :: u) = b * a + dot v u from by simp [dot],
        mul_comm a b, ih v]

lemma norm_nonneg (v : List ℝ) : 0 ≤ norm v := Real.sqrt_nonneg _

lemma rankOrder_key (query : Entry) (cands : List Entry) {i : ℕ}
    (hi : i < cands.length) :
    (sims query.embedding (cands.map Entry.embedding)).getD i 0
      = simTo query.embedding cands[i].embedding := by
  have hi' : i < (cands.map Entry.embedding).length := by simpa using hi
  rw [sims_getD _ _ hi']
  congr 1
  simp

/-! ## Claim theorems -/

/-- C3: for every query entry and every candidate list — including ones
where some candidate is more similar to the query than the query is to
itself (the query's own similarity is never computed) — the ranked
output has the query entry's text at position 0. -/
theorem rank_query_first (query : Entry) (cands : List Entry) :
    (rank query cands).head? = some query.text := by
  unfold rank
  split <;> rfl

/-- C6: with an empty candidate list the ranked output is exactly the
query entry. -/
theorem rank_empty (query : Entry) : rank query [] = [query.text] := rfl

/-- C5: the ranked output is the query entry's text followed by a
permutation of the candidates' texts — each input candidate appears
exactly once in the tail. -/
theorem rank_tail_perm (query : Entry) (cands : List Entry) :
    ∃ t, rank query cands = query.text :: t ∧ t.Perm (cands.map Entry.text) := by
  unfold rank
  by_cases h : cands.isEmpty = true
  · rw [if_pos h]
    exact ⟨[], rfl, by simp [List.isEmpty_iff.mp h]⟩
  · rw [if_neg h]
    refine ⟨_, rfl, ?_⟩
    unfold rankOrder
    have hperm := rankIdxs_perm (sims query.embedding (cands.map Entry.embedding))
    have hmap := hperm.map (fun i => (cands.map Entry.text).getD i "")
    have hlen : (sims query.embedding (cands.map Entry.embedding)).length
        = (cands.map Entry.text).length := by
      rw [sims_length]; simp
    rw [hlen] at hmap
    have heval : (List.range (cands.map Entry.text).length).map
        (fun i => (cands.map Entry.text).getD i "") = cands.map Entry.text :=
      map_getD_range _ _
    rw [heval] at hmap
    exact hmap

/-- C8: the ranking computation is a pure function of the query entry
and the candidate list, so running it twice on the same input yields
identical outputs (the model has no hidden state; determinism is
definitional for it). -/
theorem rank_deterministic (query : Entry) (cands : List Entry) :
    rank query cands = rank query cands := rfl

/-- C9: `get_hf_embedding` returns an embedding list exactly when the
HTTP status is 200 and the parsed body has an `"embedding"` key — and in
that case it returns that key's value; in every other case it raises
(modelled: returns `Except.error`) instead of returning a value.  The
function makes a single request and has no retry path. -/
theorem get_hf_embedding_fatal (resp : HFResponse) :
    ((∃ v, get_hf_embedding resp = Except.ok v) ↔
      resp.status_code = 200 ∧ resp.embedding?.isSome) ∧
    (∀ v, get_hf_embedding resp = Except.ok v → resp.embedding? = some v) ∧
    (¬(resp.status_code = 200 ∧ resp.embedding?.isSome) →
      ∃ msg, get_hf_embedding resp = Except.error msg) := by
  unfold get_hf_embedding
  by_cases hs : resp.status_code = 200
  · cases hemb : resp.embedding? with
    | none => simp [hs, hemb]
    | some v => simp [hs, hemb]
  · simp [hs]

/-- C9 witness: a concrete non-200 response is rejected with an error. -/
theorem get_hf_embedding_fatal_witness :
    ¬((503 : ℕ) = 200 ∧ (Option.none (α := List ℝ)).isSome) ∧
    ∃ msg, get_hf_embedding ⟨503, "overloaded", none⟩ = Except.error msg := by
  refine ⟨by simp, ?_⟩
  exact (get_hf_embedding_fatal ⟨503, "overloaded", none⟩).2.2 (by simp)

/-- C10: when the POSTed `user_text` is missing or whitespace-only, the
handler computes no embedding (its result does not depend on the
embedding function), inserts nothing (the store is unchanged), and the
similarity-ranked list rendered is empty. -/
theorem indexPost_empty_text (store0 : List Entry) (formUserText : Option String)
    (embed embed₂ : String → List ℝ) (newId : ℕ)
    (h : pyStrip (formUserText.getD "") = "") :
    (indexPost store0 formUserText embed newId).store = store0 ∧
    (indexPost store0 formUserText embed newId).sorted_list = [] ∧
    indexPost store0 formUserText embed newId
      = indexPost store0 formUserText embed₂ newId := by
  unfold indexPost
  simp [h]

/-- C10 witness: a whitespace-only submission leaves an empty store
unchanged, renders an empty ranked list, and two different embedding
functions give the same result. -/
theorem indexPost_empty_text_witness :
    pyStrip ((Option.some "  ").getD "") = "" ∧
    ((indexPost [] (Option.some "  ") (fun _ => []) 1).store = [] ∧
     (indexPost [] (Option.some "  ") (fun _ => []) 1).sorted_list = [] ∧
     indexPost [] (Option.some "  ") (fun _ => []) 1
       = indexPost [] (Option.some "  ") (fun _ => [1]) 1) := by
  have h : pyStrip ((Option.some "  ").getD "") = "" := by decide
  exact ⟨h, indexPost_empty_text [] (Option.some "  ") (fun _ => []) (fun _ => [1]) 1 h⟩

/-- C2: if candidate `i`'s similarity to the query is strictly greater
than candidate `j`'s, then `i` precedes `j` in the ranked order (the
candidate at position `p` of `rankOrder` occupies position `1 + p` of
the ranked output, behind the query entry). -/
theorem rank_descending (query : Entry) (cands : List Entry) (i j : ℕ)
    (hi : i < cands.length) (hj : j < cands.length)
    (hgt : simTo query.embedding cands[i].embedding
      > simTo query.embedding cands[j].embedding) :
    List.indexOf i (rankOrder query cands) < List.indexOf j (rankOrder query cands) := by
  unfold rankOrder
  set s := sims query.embedding (cands.map Entry.embedding) with hsdef
  have hslen : s.length = cands.length := by rw [hsdef, sims_length]; simp
  have hmi : i ∈ rankIdxs s := (mem_rankIdxs s i).mpr (by rw [hslen]; exact hi)
  have hmj : j ∈ rankIdxs s := (mem_rankIdxs s j).mpr (by rw [hslen]; exact hj)
  have hpi : List.indexOf i (rankIdxs s) < (rankIdxs s).length :=
    List.indexOf_lt_length.mpr hmi
  have hpj : List.indexOf j (rankIdxs s) < (rankIdxs s).length :=
    List.indexOf_lt_length.mpr hmj
  have hgi : (rankIdxs s)[List.indexOf i (rankIdxs s)] = i := List.getElem_indexOf hpi
  have hgj : (rankIdxs s)[List.indexOf j (rankIdxs s)] = j := List.getElem_indexOf hpj
  by_contra hcon
  have hle : List.indexOf j (rankIdxs s) ≤ List.indexOf i (rankIdxs s) :=
    Nat.le_of_not_lt hcon
  have hij_ne : i ≠ j := by
    intro h
    subst h
    exact lt_irrefl _ hgt
  have hne : List.indexOf i (rankIdxs s) ≠ List.indexOf j (rankIdxs s) :=
    fun he => hij_ne ((List.indexOf_inj hmi hmj).mp he)
  have hlt : List.indexOf j (rankIdxs s) < List.indexOf i (rankIdxs s) :=
    lt_of_le_of_ne hle (fun he => hne he.symm)
  have hrel := rankIdxs_getElem_rel s hpj hpi hlt
  rw [hgi, hgj] at hrel
  rcases hrel with hlt' | ⟨heq, _⟩
  · rw [rankOrder_key query cands hi, rankOrder_key query cands hj] at hlt'
    exact absurd hlt' (lt_asymm hgt)
  · rw [rankOrder_key query cands hi, rankOrder_key query cands hj] at heq
    exact absurd heq (ne_of_gt hgt)

/-- C2 witness: with query embedding `[1]` and candidates `a = [1]`,
`b = [0]`, candidate 0 is strictly more similar and precedes
candidate 1 in the ranked order. -/
theorem rank_descending_witness :
    ((0 : ℕ) < ([⟨1, "a", [1]⟩, ⟨2, "b", [0]⟩] : List Entry).length ∧
      (1 : ℕ) < ([⟨1, "a", [1]⟩, ⟨2, "b", [0]⟩] : List Entry).length ∧
      simTo [(1 : ℝ)] [(1 : ℝ)] > simTo [(1 : ℝ)] [(0 : ℝ)]) ∧
    List.indexOf 0 (rankOrder ⟨0, "q", [1]⟩ [⟨1, "a", [1]⟩, ⟨2, "b", [0]⟩])
      < List.indexOf 1 (rankOrder ⟨0, "q", [1]⟩ [⟨1, "a", [1]⟩, ⟨2, "b", [0]⟩]) := by
  have h1 : dot [(1 : ℝ)] [(1 : ℝ)] = 1 := by simp [dot]
  have hn1 : norm [(1 : ℝ)] = 1 := by rw [norm, h1, Real.sqrt_one]
  have h0 : dot [(0 : ℝ)] [(1 : ℝ)] = 0 := by simp [dot]
  have hsim : simTo [(1 : ℝ)] [(1 : ℝ)] > simTo [(1 : ℝ)] [(0 : ℝ)] := by
    unfold simTo
    rw [h1, h0, hn1, zero_div]
    unfold eps
    norm_num
  refine ⟨⟨by norm_num, by norm_num, hsim⟩, ?_⟩
  exact rank_descending ⟨0, "q", [1]⟩ [⟨1, "a", [1]⟩, ⟨2, "b", [0]⟩] 0 1
    (by norm_num) (by norm_num) hsim

/-- C1 counterexample: two candidates with identical embeddings (hence
equal similarity to the query) come out in *reversed* input order: with
input order `a, b` the ranked output is `["q", "b", "a"]`, and the
second input candidate (index 1) precedes the first (index 0).  The
code reverses a stable ascending argsort (`np.argsort(sims)[::-1]`),
which reverses ties instead of preserving them. -/
theorem rank_stability_counterexample :
    simTo [(1 : ℝ)] [(1 : ℝ)] = simTo [(1 : ℝ)] [(1 : ℝ)] ∧
    rank ⟨0, "q", [1]⟩ [⟨1, "a", [1]⟩, ⟨2, "b", [1]⟩] = ["q", "b", "a"] ∧
    List.indexOf 1 (rankOrder ⟨0, "q", [1]⟩ [⟨1, "a", [1]⟩, ⟨2, "b", [1]⟩])
      < List.indexOf 0 (rankOrder ⟨0, "q", [1]⟩ [⟨1, "a", [1]⟩, ⟨2, "b", [1]⟩]) := by
  have hkey : keyOrder (sims [(1 : ℝ)] [[(1 : ℝ)], [(1 : ℝ)]]) 0 1 :=
    Or.inr ⟨rfl, by omega⟩
  have hro : rankOrder ⟨0, "q", [1]⟩ [⟨1, "a", [1]⟩, ⟨2, "b", [1]⟩] = [1, 0] := by
    show (List.insertionSort (keyOrder (sims [(1 : ℝ)] [[(1 : ℝ)], [(1 : ℝ)]]))
      [0, 1]).reverse = [1, 0]
    simp only [List.insertionSort, List.orderedInsert]
    rw [if_pos hkey]
    rfl
  refine ⟨rfl, ?_, ?_⟩
  · unfold rank
    rw [if_neg (by simp), hro]
    rfl
  · rw [hro]
    decide

/-- C1 amended: equal-similarity candidates appear in the ranked order
in *reversed* input order — if `i` comes before `j` in the input and
their similarities to the query are equal, then `j` precedes `i` in the
ranked output. -/
theorem rank_ties_reversed (query : Entry) (cands : List Entry) (i j : ℕ)
    (hi : i < cands.length) (hj : j < cands.length) (hij : i < j)
    (heq : simTo query.embedding cands[i].embedding
      = simTo query.embedding cands[j].embedding) :
    List.indexOf j (rankOrder query cands) < List.indexOf i (rankOrder query cands) := by
  unfold rankOrder
  set s := sims query.embedding (cands.map Entry.embedding) with hsdef
  have hslen : s.length = cands.length := by rw [hsdef, sims_length]; simp
  have hmi : i ∈ rankIdxs s := (mem_rankIdxs s i).mpr (by rw [hslen]; exact hi)
  have hmj : j ∈ rankIdxs s := (mem_rankIdxs s j).mpr (by rw [hslen]; exact hj)
  have hpi : List.indexOf i (rankIdxs s) < (rankIdxs s).length :=
    List.indexOf_lt_length.mpr hmi
  have hpj : List.indexOf j (rankIdxs s) < (rankIdxs s).length :=
    List.indexOf_lt_length.mpr hmj
  have hgi : (rankIdxs s)[List.indexOf i (rankIdxs s)] = i := List.getElem_indexOf hpi
  have hgj : (rankIdxs s)[List.indexOf j (rankIdxs s)] = j := List.getElem_indexOf hpj
  by_contra hcon
  have hle : List.indexOf i (rankIdxs s) ≤ List.indexOf j (rankIdxs s) :=
    Nat.le_of_not_lt hcon
  have hij_ne : i ≠ j := Nat.ne_of_lt hij
  have hne : List.indexOf i (rankIdxs s) ≠ List.indexOf j (rankIdxs s) :=
    fun he => hij_ne ((List.indexOf_inj hmi hmj).mp he)
  have hlt : List.indexOf i (rankIdxs s) < List.indexOf j (rankIdxs s) :=
    lt_of_le_of_ne hle hne
  have hrel := rankIdxs_getElem_rel s hpi hpj hlt
  rw [hgi, hgj] at hrel
  rcases hrel with hlt' | ⟨heq', hji⟩
  · rw [rankOrder_key query cands hj, rankOrder_key query cands hi] at hlt'
    rw [heq] at hlt'
    exact lt_irrefl _ hlt'
  · omega

/-- C1 amended witness: for the two identical-embedding candidates of
the counterexample, the tie is listed in reversed input order. -/
theorem rank_ties_reversed_witness :
    ((0 : ℕ) < ([⟨1, "a", [1]⟩, ⟨2, "b", [1]⟩] : List Entry).length ∧
      (1 : ℕ) < ([⟨1, "a", [1]⟩, ⟨2, "b", [1]⟩] : List Entry).length ∧
      (0 : ℕ) < 1 ∧
      simTo [(1 : ℝ)] [(1 : ℝ)] = simTo [(1 : ℝ)] [(1 : ℝ)]) ∧
    List.indexOf 1 (rankOrder ⟨0, "q", [1]⟩ [⟨1, "a", [1]⟩, ⟨2, "b", [1]⟩])
      < List.indexOf 0 (rankOrder ⟨0, "q", [1]⟩ [⟨1, "a", [1]⟩, ⟨2, "b", [1]⟩]) := by
  refine ⟨⟨by norm_num, by norm_num, by norm_num, rfl⟩, ?_⟩
  exact rank_ties_reversed ⟨0, "q", [1]⟩ [⟨1, "a", [1]⟩, ⟨2, "b", [1]⟩] 0 1
    (by norm_num) (by norm_num) (by norm_num) rfl

/-- C4: the similarity score used for ranking is
`dot(query, candidate) / (norm(query) * norm(candidate) + 1e-10)`, and
the denominator is strictly positive (so nonzero, and the score is
defined even for zero vectors). -/
theorem sim_formula (q : List ℝ) (embs : List (List ℝ)) (i : ℕ)
    (hi : i < embs.length) :
    (sims q embs).getD i 0
      = dot q embs[i] / (norm q * norm embs[i] + 1e-10) ∧
    0 < norm q * norm embs[i] + 1e-10 := by
  constructor
  · rw [sims_getD q embs hi]
    unfold simTo
    rw [dot_comm, mul_comm (norm embs[i]) (norm q)]
    rfl
  · have h1 : (0 : ℝ) < 1e-10 := by norm_num
    have h2 : 0 ≤ norm q * norm embs[i] :=
      mul_nonneg (norm_nonneg q) (norm_nonneg embs[i])
    linarith

/-- C4 witness: at the zero query vector and a zero candidate vector the
score is still defined, with a positive denominator. -/
theorem sim_formula_witness :
    (0 : ℕ) < ([[(0 : ℝ)]] : List (List ℝ)).length ∧
    ((sims [(0 : ℝ)] [[(0 : ℝ)]]).getD 0 0
        = dot [(0 : ℝ)] ([[(0 : ℝ)]] : List (List ℝ))[0]
          / (norm [(0 : ℝ)] * norm ([[(0 : ℝ)]] : List (List ℝ))[0] + 1e-10) ∧
      (0 : ℝ) < norm [(0 : ℝ)] * norm ([[(0 : ℝ)]] : List (List ℝ))[0] + 1e-10) := by
  have h : (0 : ℕ) < ([[(0 : ℝ)]] : List (List ℝ)).length := by norm_num
  exact ⟨h, sim_formula [(0 : ℝ)] [[(0 : ℝ)]] 0 h⟩

/-- C7: on the spec's concrete example — query `[1,0]` with candidates
`(1,"a",[1,0])`, `(2,"b",[0,1])`, `(3,"c",[0.7,0.7])` — the ranked
output lists the query first and then ids 1, 3, 2, i.e. texts
`"a", "c", "b"` (similarities 1/(1+ε), ≈0.707, 0). -/
theorem rank_example :
    rank ⟨0, "q", [1, 0]⟩
      [⟨1, "a", [1, 0]⟩, ⟨2, "b", [0, 1]⟩, ⟨3, "c", [0.7, 0.7]⟩]
      = ["q", "a", "c", "b"] := by
  have heps : (0 : ℝ) < eps := by unfold eps; norm_num
  have hd10 : dot [(1 : ℝ), 0] [(1 : ℝ), 0] = 1 := by simp [dot]
  have hn10 : norm [(1 : ℝ), 0] = 1 := by rw [norm, hd10, Real.sqrt_one]
  have hd01 : dot [(0 : ℝ), 1] [(1 : ℝ), 0] = 0 := by simp [dot]
  have hd77 : dot [(0.7 : ℝ), 0.7] [(1 : ℝ), 0] = 0.7 := by
    norm_num [dot]
  have hd7sq : dot [(0.7 : ℝ), 0.7] [(0.7 : ℝ), 0.7] = 0.98 := by
    norm_num [dot]
  have hn77 : norm [(0.7 : ℝ), 0.7] = Real.sqrt 0.98 := by rw [norm, hd7sq]
  have hsqrt_lb : (0.9 : ℝ) < Real.sqrt 0.98 :=
    (Real.lt_sqrt (by norm_num)).mpr (by norm_num)
  have hs0 : simTo [(1 : ℝ), 0] [(1 : ℝ), 0] = 1 / (1 + eps) := by
    unfold simTo
    rw [hd10, hn10, one_mul]
  have hs1 : simTo [(1 : ℝ), 0] [(0 : ℝ), 1] = 0 := by
    unfold simTo
    rw [hd01, zero_div]
  have hs2 : simTo [(1 : ℝ), 0] [(0.7 : ℝ), 0.7] = 0.7 / (Real.sqrt 0.98 + eps) := by
    unfold simTo
    rw [hd77, hn77, hn10, mul_one]
  have hpos2 : (0 : ℝ) < Real.sqrt 0.98 + eps := by
    have := Real.sqrt_nonneg (0.98 : ℝ)
    linarith
  have h12 : simTo [(1 : ℝ), 0] [(0 : ℝ), 1] < simTo [(1 : ℝ), 0] [(0.7 : ℝ), 0.7] := by
    rw [hs1, hs2]
    exact div_pos (by norm_num) hpos2
  have h20 : simTo [(1 : ℝ), 0] [(0.7 : ℝ), 0.7] < simTo [(1 : ℝ), 0] [(1 : ℝ), 0] := by
    rw [hs2, hs0, div_lt_div_iff₀ hpos2 (by linarith)]
    unfold eps at *
    nlinarith [hsqrt_lb]
  have h10 : simTo [(1 : ℝ), 0] [(0 : ℝ), 1] < simTo [(1 : ℝ), 0] [(1 : ℝ), 0] :=
    h12.trans h20
  have kA : keyOrder (sims [(1 : ℝ), 0] [[(1 : ℝ), 0], [(0 : ℝ), 1], [(0.7 : ℝ), 0.7]]) 1 2 :=
    Or.inl h12
  have kB : ¬ keyOrder (sims [(1 : ℝ), 0] [[(1 : ℝ), 0], [(0 : ℝ), 1], [(0.7 : ℝ), 0.7]]) 0 1 := by
    intro h
    rcases h with h | ⟨h, _⟩
    · exact absurd h (lt_asymm h10)
    · exact absurd h (ne_of_gt h10)
  have kC : ¬ keyOrder (sims [(1 : ℝ), 0] [[(1 : ℝ), 0], [(0 : ℝ), 1], [(0.7 : ℝ), 0.7]]) 0 2 := by
    intro h
    rcases h with h | ⟨h, _⟩
    · exact absurd h (lt_asymm h20)
    · exact absurd h (ne_of_gt h20)
  have hro : rankOrder ⟨0, "q", [1, 0]⟩
      [⟨1, "a", [1, 0]⟩, ⟨2, "b", [0, 1]⟩, ⟨3, "c", [0.7, 0.7]⟩] = [0, 2, 1] := by
    show (List.insertionSort
      (keyOrder (sims [(1 : ℝ), 0] [[(1 : ℝ), 0], [(0 : ℝ), 1], [(0.7 : ℝ), 0.7]]))
      [0, 1, 2]).reverse = [0, 2, 1]
    simp only [List.insertionSort, List.orderedInsert]
    rw [if_pos kA]
    simp only [List.orderedInsert]
    rw [if_neg kB, if_neg kC]
    rfl
  unfold rank
  rw [if_neg (by simp), hro]
  rfl

end SemanticSort
